import Mathlib

/-!
Verification development for the kaputt Rule/Tagger/FilterPipeline engine.

Shallow embedding of the core in src/src/filter.cpp, src/src/rules.h,
src/src/rule.h and the hook/condition helpers in src/unnamed/part_001.

Modelling conventions:
  - toml values are modelled by the inductive TomlVal; a toml table is an
    association list of string keys (the real library keeps a map keyed by
    string; key uniqueness and iteration order of produced tables are
    handled explicitly where a theorem depends on them).
  - floating point payloads carry an Int; no claim here depends on float
    arithmetic, only on the kind of a value and on order comparisons that
    the embedding performs on Int.
  - the tag set type StrSet of filter.h (the header is absent from src) is
    modelled from the spec as a list of unique string tokens with union,
    containment and array serialization.
  - C++ exceptions are modelled by Except; a dereference of a null
    as_array result is modelled by a distinguished error value TomlErr.ub.
-/

namespace Kaputt

inductive TomlVal where
  | vStr : String → TomlVal
  | vBool : Bool → TomlVal
  | vInt : Int → TomlVal
  | vFloat : Int → TomlVal
  | vArr : List TomlVal → TomlVal
  | vTable : List (String × TomlVal) → TomlVal

abbrev TomlTable := List (String × TomlVal)

def TomlVal.asStr? : TomlVal → Option String
  | .vStr s => some s
  | _ => none

def TomlVal.asBool? : TomlVal → Option Bool
  | .vBool b => some b
  | _ => none

def TomlVal.asArr? : TomlVal → Option (List TomlVal)
  | .vArr a => some a
  | _ => none

def TomlVal.asTable? : TomlVal → Option TomlTable
  | .vTable t => some t
  | _ => none

/-- Access tbl[k] of the toml library: none models a missing key. -/
def tget (t : TomlTable) (k : String) : Option TomlVal :=
  List.lookup k t

def tgetStr? (t : TomlTable) (k : String) : Option String :=
  (tget t k).bind TomlVal.asStr?

def tgetBool? (t : TomlTable) (k : String) : Option Bool :=
  (tget t k).bind TomlVal.asBool?

def tgetArr? (t : TomlTable) (k : String) : Option (List TomlVal) :=
  (tget t k).bind TomlVal.asArr?

def tgetTable? (t : TomlTable) (k : String) : Option TomlTable :=
  (tget t k).bind TomlVal.asTable?

inductive TKind where
  | kStr | kBool | kInt | kFloat | kArr | kTable
deriving DecidableEq

def TomlVal.kind : TomlVal → TKind
  | .vStr _ => .kStr
  | .vBool _ => .kBool
  | .vInt _ => .kInt
  | .vFloat _ => .kFloat
  | .vArr _ => .kArr
  | .vTable _ => .kTable

/-- Modelled from the spec: isSameStructure is declared in the utils header
but its implementation file is absent from src. Per the spec it is a flat
structural comparison of two tables: same key set and, per key, the same
value kind; values are free to differ. -/
def isSameStructure (a b : TomlTable) : Bool :=
  a.all (fun kv =>
    match tget b kv.1 with
    | some w => kv.2.kind = w.kind
    | none => false) &&
  b.all (fun kv =>
    match tget a kv.1 with
    | some w => kv.2.kind = w.kind
    | none => false)

/-- Emplace of the toml table type: inserts only when the key is not
already present (the second insertion with the same key is dropped). -/
def tableEmplace (t : TomlTable) (k : String) (v : TomlVal) : TomlTable :=
  if (tget t k).isSome then t else t ++ [(k, v)]

/-- Modelled from the spec: the tag set type of the absent filter.h header;
an unordered collection of unique string tokens. A list with unique
elements models it; insertion appends an unseen token. -/
abbrev StrSet := List String

def strInsert (l : StrSet) (s : String) : StrSet :=
  if s ∈ l then l else l ++ [s]

/-- Modelled from the spec: tag set union (StrSet.merge in the source). -/
def mergeStrSet (dst : StrSet) (src : StrSet) : StrSet :=
  src.foldl strInsert dst

/-- Modelled from the spec: tag set serialization to a token array. -/
def StrSet.toToml (l : StrSet) : List TomlVal :=
  l.map TomlVal.vStr

/-- Modelled from the spec: tag set deserialization; only string elements
of the array are inserted. -/
def StrSet.fromToml (arr : List TomlVal) : StrSet :=
  arr.foldl (fun acc v =>
    match v with
    | .vStr s => strInsert acc s
    | _ => acc) []

/-- A pair of tag sets, filter.h TaggerOutput. -/
structure TaggerOutput where
  required_tags : StrSet
  banned_tags : StrSet
deriving DecidableEq

/-- One rule object of the registry (rules.h class Rule): a fixed default
parameter table and the current, registry resident parameter state. -/
structure RuleObj where
  defaultParams : TomlTable
  params : TomlTable

/-- The rule registry: the process wide map from rule name to the shared
rule object that Rule.getRule resolves against. -/
abbrev Registry := List (String × RuleObj)

/-- Modelled from the spec: Rule.getRule (declared in the absent filter.h)
resolves a stable case sensitive name in the registry. -/
def getRule? (reg : Registry) (name : String) : Option RuleObj :=
  List.lookup name reg

/-- Writing the params member of the registry resident rule object named
name, as the assignment on line 48 of filter.cpp does through the shared
rule pointer. The registry map holds one object per name. -/
def setRuleParams : Registry → String → TomlTable → Registry
  | [], _, _ => []
  | (k, r) :: rest, name, p =>
    if k == name then (k, { r with params := p }) :: rest
    else (k, r) :: setRuleParams rest name p

/-- The structural shadow of a registry: rule names and default parameter
tables only; the data that parsing success depends on. -/
def regShape (reg : Registry) : List (String × TomlTable) :=
  reg.map (fun nr => (nr.1, nr.2.defaultParams))

/-- A Tagger (filter.h): the rule reference is the registry key the shared
rule pointer resolves to. -/
structure Tagger where
  ruleName : String
  comment : String
  enable_true : Bool
  enable_false : Bool
  true_tags : TaggerOutput
  false_tags : TaggerOutput
deriving DecidableEq

structure TagExpansion where
  fromTag : String
  toTags : StrSet
deriving DecidableEq

structure FilterPipeline where
  tagger_list : List Tagger
  tagexp_list : List TagExpansion
deriving DecidableEq

/-- Errors of the loading path: thrown models std::runtime_error, which
loadFile catches per entry; ub models the dereference of a null as_array
result, which is undefined behavior the program cannot catch. -/
inductive TomlErr where
  | thrown : String → TomlErr
  | ub : TomlErr
deriving DecidableEq

def TaggerOutput.toToml (o : TaggerOutput) : TomlTable :=
  [("req_tags", .vArr (StrSet.toToml o.required_tags)),
   ("ban_tags", .vArr (StrSet.toToml o.banned_tags))]

/-- TaggerOutput::fromToml, filter.cpp lines 12-21. The guard on line 14
tests req_tags twice and never tests ban_tags; the unconditional read of
ban_tags as an array on line 19 is then a null dereference whenever
ban_tags is absent or not an array. -/
def TaggerOutput.fromToml (tbl : TomlTable) : Except TomlErr TaggerOutput :=
  if !((tgetArr? tbl "req_tags").isSome && (tgetArr? tbl "req_tags").isSome) then
    .error (.thrown "Required TaggerOutput field unfulfilled.")
  else
    match tgetArr? tbl "req_tags" with
    | none => .error .ub
    | some req =>
      match tgetArr? tbl "ban_tags" with
      | none => .error .ub
      | some ban => .ok ⟨StrSet.fromToml req, StrSet.fromToml ban⟩

/-- Tagger::toToml, filter.cpp lines 23-34: the params field is read from
the registry resident rule object the tagger points at. -/
def Tagger.toToml (reg : Registry) (t : Tagger) : TomlTable :=
  [("rule", .vStr t.ruleName),
   ("params", .vTable (((getRule? reg t.ruleName).map RuleObj.params).getD [])),
   ("comment", .vStr t.comment),
   ("enable_true", .vBool t.enable_true),
   ("enable_false", .vBool t.enable_false),
   ("true_tags", .vTable t.true_tags.toToml),
   ("false_tags", .vTable t.false_tags.toToml)]

/-- Tagger::fromToml, filter.cpp lines 36-58. The field type guard throws
when any of the seven fields is missing or of the wrong type; an unknown
rule name is a configuration error (modelled from the spec, the getRule
body being outside src); a params table whose structure differs from the
default is rejected; then the loaded params are written into the registry
resident rule object before the two tag tables are parsed, so the write
persists even when a later tag table throws. -/
def Tagger.fromToml (reg : Registry) (tbl : TomlTable) :
    Registry × Except TomlErr Tagger :=
  match tgetStr? tbl "rule", tgetTable? tbl "params", tgetStr? tbl "comment",
        tgetBool? tbl "enable_true", tgetBool? tbl "enable_false",
        tgetTable? tbl "true_tags", tgetTable? tbl "false_tags" with
  | some name, some params, some comment, some et, some ef, some ttT, some ftT =>
    (match getRule? reg name with
     | none => (reg, .error (.thrown "unknown rule name"))
     | some robj =>
       if isSameStructure params robj.defaultParams then
         let reg' := setRuleParams reg name params
         match TaggerOutput.fromToml ttT, TaggerOutput.fromToml ftT with
         | .error e, _ => (reg', .error e)
         | .ok _, .error e => (reg', .error e)
         | .ok tt, .ok ft => (reg', .ok ⟨name, comment, et, ef, tt, ft⟩)
       else (reg, .error (.thrown "Wrong parameters for rule type")))
  | _, _, _, _, _, _, _ =>
    (reg, .error (.thrown "Required Tagger fields unfulfilled."))

/-- The taggers loop of FilterPipeline::loadFile, filter.cpp lines
109-129: a non table element or a caught runtime error clears the overall
flag and the loop continues; an uncatchable null dereference is modelled
as none. -/
def loadTaggers : Registry → List Tagger → Bool → List TomlVal →
    Option (Registry × List Tagger × Bool)
  | reg, tgs, good, [] => some (reg, tgs, good)
  | reg, tgs, good, v :: rest =>
    match v.asTable? with
    | none => loadTaggers reg tgs false rest
    | some tbl =>
      match Tagger.fromToml reg tbl with
      | (reg', .ok tg) => loadTaggers reg' (tgs ++ [tg]) good rest
      | (reg', .error (.thrown _)) => loadTaggers reg' tgs false rest
      | (_, .error .ub) => none

/-- The tagexps loop of FilterPipeline::loadFile, filter.cpp lines
132-144. -/
def loadTagexps : List TagExpansion → Bool → List (String × TomlVal) →
    List TagExpansion × Bool
  | exps, good, [] => (exps, good)
  | exps, good, (k, v) :: rest =>
    match v.asArr? with
    | some a => loadTagexps (exps ++ [⟨k, StrSet.fromToml a⟩]) good rest
    | none => loadTagexps exps false rest

/-- FilterPipeline::loadFile, filter.cpp lines 90-152, from the point
where the document text has been parsed by the external toml library into
a table. An absent taggers array is only warned about; an absent tagexps
table clears the overall flag. -/
def FilterPipeline.loadFile (reg : Registry) (pl : FilterPipeline)
    (doc : TomlTable) (append : Bool) :
    Option (Registry × FilterPipeline × Bool) :=
  let pl0 := if append then pl else ⟨[], []⟩
  let tstep :=
    match tgetArr? doc "taggers" with
    | some vs => loadTaggers reg pl0.tagger_list true vs
    | none => some (reg, pl0.tagger_list, true)
  match tstep with
  | none => none
  | some (reg', tgs, good1) =>
    match tgetTable? doc "tagexps" with
    | some kvs =>
      let r := loadTagexps pl0.tagexp_list good1 kvs
      some (reg', ⟨tgs, r.1⟩, r.2)
    | none => some (reg', ⟨tgs, pl0.tagexp_list⟩, false)

/-- FilterPipeline::saveFile, filter.cpp lines 154-175, producing the
document table that is printed to the file: the taggers array in list
order, and the tagexps table built by emplace keyed on the fromTag, so a
second expansion with an already present fromTag is dropped. -/
def FilterPipeline.saveFile (reg : Registry) (pl : FilterPipeline) : TomlTable :=
  [("taggers", .vArr (pl.tagger_list.map (fun t => .vTable (Tagger.toToml reg t)))),
   ("tagexps", .vTable (pl.tagexp_list.foldl
      (fun acc te => tableEmplace acc te.fromTag (.vArr (StrSet.toToml te.toTags))) []))]

/-- A content pool entry (AnimEntry of the external entry manager): an
identifier and its tag set. -/
structure AnimEntry where
  edid : String
  tags : StrSet
deriving DecidableEq

/-- The per entry effective tag computation of FilterPipeline::
pickAnimation, filter.cpp lines 67-72: each expansion whose fromTag the
original tags contain contributes its target set, then the original tags
are merged in; only the original tags are ever tested as sources. -/
def expandTags (tagexp_list : List TagExpansion) (orig : StrSet) : StrSet :=
  let exp_tags := tagexp_list.foldl
    (fun acc te => if orig.contains te.fromTag then mergeStrSet acc te.toTags else acc) []
  mergeStrSet exp_tags orig

/-- The filter predicate of pickAnimation, filter.cpp lines 74-75: every
required tag present in the effective set and no banned tag present. -/
def animSurvives (tagexp_list : List TagExpansion) (req ban : StrSet)
    (a : AnimEntry) : Bool :=
  let exp_tags := expandTags tagexp_list a.tags
  req.all (fun t => exp_tags.contains t) && ban.all (fun t => !exp_tags.contains t)

def filteredAnims (pool : List AnimEntry) (tagexp_list : List TagExpansion)
    (req ban : StrSet) : List AnimEntry :=
  pool.filter (animSurvives tagexp_list req ban)

/-- FilterPipeline::pickAnimation, filter.cpp lines 60-88, for a given
accumulated required and banned pair (the Tagger accumulation is outside
the claim, which quantifies over the two tag sets). The uniform draw on
the candidate index range 0 to size-1 is modelled by r mod size for an
arbitrary r. -/
def pickAnimation (pool : List AnimEntry) (tagexp_list : List TagExpansion)
    (req ban : StrSet) (r : Nat) : Option AnimEntry :=
  let fa := filteredAnims pool tagexp_list req ban
  if fa.isEmpty then none
  else fa[r % fa.length]?

/-- The same call with the generator seeding made observable: seedCount
counts executions of gen.seed. The once_flag on line 84 of filter.cpp is
a fresh local object on every call, so the call_once body runs whenever
the line is reached, which is exactly when the candidate list is not
empty. -/
def pickAnimationSeeded (seedCount : Nat) (pool : List AnimEntry)
    (tagexp_list : List TagExpansion) (req ban : StrSet) (r : Nat) :
    Nat × Option AnimEntry :=
  let fa := filteredAnims pool tagexp_list req ban
  if fa.isEmpty then (seedCount, none)
  else (seedCount + 1, fa[r % fa.length]?)

/-- The expansion mapping a tag expansion list denotes: tag t maps to tag
s when some entry with fromTag t carries s. -/
def expMapsTo (l : List TagExpansion) (t s : String) : Prop :=
  ∃ e ∈ l, e.fromTag = t ∧ s ∈ e.toTags

/-- Equivalence of two expansion tables as the spec states it: the same
tag sets under each source tag. -/
def tagexpEquiv (l1 l2 : List TagExpansion) : Prop :=
  ∀ t s, expMapsTo l1 t s ↔ expMapsTo l2 t s

/-- The outcome of one element of the taggers array, computed against the
registry shape only (rule names and default tables): okTg is a parsed
tagger, skip is a caught error that clears the overall flag, crash is the
uncatchable null dereference inside TaggerOutput::fromToml. -/
inductive EntryResult where
  | okTg : Tagger → EntryResult
  | skip : EntryResult
  | crash : EntryResult
deriving DecidableEq

def EntryResult.parsed? : EntryResult → Option Tagger
  | .okTg tg => some tg
  | _ => none

def EntryResult.keeps : EntryResult → Bool
  | .okTg _ => true
  | _ => false

/-- The status of one taggers array element against a registry shape;
mirrors Tagger.fromToml, whose success, parsed value and crash behavior
depend on the registry only through its shape. -/
def entryStatus (shape : List (String × TomlTable)) (v : TomlVal) : EntryResult :=
  match v.asTable? with
  | none => .skip
  | some tbl =>
    match tgetStr? tbl "rule", tgetTable? tbl "params", tgetStr? tbl "comment",
          tgetBool? tbl "enable_true", tgetBool? tbl "enable_false",
          tgetTable? tbl "true_tags", tgetTable? tbl "false_tags" with
    | some name, some params, some comment, some et, some ef, some ttT, some ftT =>
      (match List.lookup name shape with
       | none => .skip
       | some defp =>
         if isSameStructure params defp then
           match TaggerOutput.fromToml ttT, TaggerOutput.fromToml ftT with
           | .error (.thrown _), _ => .skip
           | .error .ub, _ => .crash
           | .ok _, .error (.thrown _) => .skip
           | .ok _, .error .ub => .crash
           | .ok tt, .ok ft => .okTg ⟨name, comment, et, ef, tt, ft⟩
         else .skip)
    | _, _, _, _, _, _, _ => .skip

/-- A json value of the nlohmann library as used by rule.h; numeric
payloads are abstracted to Int, only the kind matters to validation. -/
inductive Json where
  | jNull : Json
  | jBool : Bool → Json
  | jNum : Int → Json
  | jStr : String → Json
  | jArr : List Json → Json
  | jObj : List (String × Json) → Json

inductive JKind where
  | kBool | kNum | kStr
deriving DecidableEq

def jLookup (j : Json) (k : String) : Option Json :=
  match j with
  | .jObj o => List.lookup k o
  | _ => none

/-- Whether get_to into a member of the given kind succeeds on the value:
the nlohmann conversions used by the params classes accept exactly a
boolean for bool, a number for float, a string for std::string. -/
def kindAccepts : JKind → Json → Bool
  | .kBool, .jBool _ => true
  | .kNum, .jNum _ => true
  | .kStr, .jStr _ => true
  | _, _ => false

/-- One field read of the generated from_json body: j.at(k).get_to(member);
at throws when j is not an object or lacks the key, get_to throws on a
kind mismatch. -/
def readField (j : Json) (k : String) (kd : JKind) : Except String Unit :=
  match jLookup j k with
  | none => .error "at: key error or type error"
  | some v => if kindAccepts kd v then .ok () else .error "get_to: type error"

/-- The generated from_json body of a params class: the listed fields are
read in order; the first throw aborts. Fields of j that are not listed
are never looked at. -/
def fromJsonFields (j : Json) : List (String × JKind) → Except String Unit
  | [] => .ok ()
  | (k, kd) :: rest =>
    match readField j k kd with
    | .error e => .error e
    | .ok _ => fromJsonFields j rest

/-- The rule catalog of rule.h with the field lists of the params classes
given by their NLOHMANN_DEFINE_TYPE_NON_INTRUSIVE lines. -/
inductive RuleType where
  | unconditional | playable | bleedout | ragdoll | protectedRule
  | essential | angle | lastHostile | skeleton
deriving DecidableEq

def defaultFields : RuleType → List (String × JKind)
  | .unconditional => [("value", .kBool)]
  | .playable => [("check_attacker", .kBool)]
  | .bleedout => [("check_attacker", .kBool)]
  | .ragdoll => [("check_attacker", .kBool)]
  | .protectedRule => [("dummy", .kBool)]
  | .essential => [("check_attacker", .kBool)]
  | .angle => [("angle_min", .kNum), ("angle_max", .kNum)]
  | .lastHostile => [("range", .kNum)]
  | .skeleton => [("check_attacker", .kBool), ("skeleton", .kStr)]

/-- Rule::checkParams of rule.h lines 33-44: construct the params object
from the blob inside a try block; any json exception is caught and the
blob is rejected, otherwise it is accepted. -/
def checkParams (rt : RuleType) (j : Json) : Bool :=
  match fromJsonFields j (defaultFields rt) with
  | .ok _ => true
  | .error _ => false

/-- The acceptance criterion of the spec, stated from its words: the blob
has exactly the key set of the default params of the rule type, and each
value has the matching kind. -/
def structureMatches (fields : List (String × JKind)) (j : Json) : Bool :=
  match j with
  | .jObj o =>
    fields.all (fun fk =>
      match List.lookup fk.1 o with
      | some v => kindAccepts fk.2 v
      | none => false) &&
    o.all (fun kv => (List.lookup kv.1 fields).isSome)
  | _ => false

/-- What the hook translation unit sees of one loaded actor while
isLastHostileInRange (src/unnamed/part_001 lines 73-109) walks the high
actor handles; the distance to the attacker position is the Int image of
the float the host reports. -/
structure LoadedActor where
  isAttacker : Bool
  isVictim : Bool
  health : Int
  distToAttacker : Int
  hostileToAttacker : Bool
deriving DecidableEq

/-- The host state isLastHostileInRange reads, together with the victim
data that only the specification claim consults. The loop tests whether
each walked actor is hostile to the attacker; the extra player check
tests whether the attacker is hostile to the player. -/
structure LastHostileWorld where
  processListsOk : Bool
  numberHighActors : Nat
  highActors : List LoadedActor
  attackerIsPlayer : Bool
  victimIsPlayer : Bool
  playerExists : Bool
  playerDistToAttacker : Int
  attackerHostileToPlayer : Bool
  victimDistToAttacker : Int
  victimHostileToAttacker : Bool
deriving DecidableEq

/-- Whether a walked actor makes the loop return false: not the attacker,
not the victim, positive health, inside the radius and hostile to the
attacker. -/
def blocksLastHostile (range : Int) (a : LoadedActor) : Bool :=
  !a.isAttacker && !a.isVictim && decide (0 < a.health)
    && decide (a.distToAttacker < range) && a.hostileToAttacker

/-- isLastHostileInRange, src/unnamed/part_001 lines 73-109: false when
the process lists are unavailable; true immediately when no high actor is
loaded; otherwise false when some walked actor blocks, false when the
player proxy check fires (only taken when neither participant is the
player), else true. -/
def isLastHostileInRange (w : LastHostileWorld) (range : Int) : Bool :=
  if !w.processListsOk then false
  else if w.numberHighActors == 0 then true
  else if w.highActors.any (blocksLastHostile range) then false
  else if !w.attackerIsPlayer && !w.victimIsPlayer && w.playerExists
      && decide (w.playerDistToAttacker < range) && w.attackerHostileToPlayer then false
  else true

/-- The claim for the Last Hostile rule, stated from the words of the
spec: the victim is the nearest hostile within the given radius of the
attacker, meaning the victim is hostile, inside the radius, and no other
walked hostile inside the radius is strictly nearer. -/
def victimIsNearestHostile (w : LastHostileWorld) (range : Int) : Bool :=
  w.victimHostileToAttacker && decide (w.victimDistToAttacker < range)
    && w.highActors.all (fun a =>
        !blocksLastHostile range a || decide (w.victimDistToAttacker ≤ a.distToAttacker))

/-- A tagger whose tag sets are genuine sets (no duplicate tokens). -/
def TaggerWF (t : Tagger) : Prop :=
  t.true_tags.required_tags.Nodup ∧ t.true_tags.banned_tags.Nodup ∧
  t.false_tags.required_tags.Nodup ∧ t.false_tags.banned_tags.Nodup

/-- A tagger built purely from the documented rule catalog: its rule name
resolves in the registry and the params stored on the registry resident
rule have the default structure. -/
def TaggerFromCatalog (reg : Registry) (t : Tagger) : Prop :=
  ∃ robj, getRule? reg t.ruleName = some robj ∧
    isSameStructure robj.params robj.defaultParams = true

/-! Helper lemmas about the tag set model. -/

theorem contains_iff_mem {l : List String} {s : String} :
    l.contains s = true ↔ s ∈ l :=
  List.elem_iff

theorem mem_strInsert {l : StrSet} {x s : String} :
    s ∈ strInsert l x ↔ s ∈ l ∨ s = x := by
  unfold strInsert
  by_cases h : x ∈ l
  · simp only [if_pos h]
    exact ⟨Or.inl, fun hc => hc.elim id (fun e => e ▸ h)⟩
  · simp [if_neg h]

theorem mem_mergeStrSet {a b : StrSet} {s : String} :
    s ∈ mergeStrSet a b ↔ s ∈ a ∨ s ∈ b := by
  induction b generalizing a with
  | nil => simp [mergeStrSet]
  | cons x xs ih =>
    show s ∈ mergeStrSet (strInsert a x) xs ↔ _
    rw [ih, mem_strInsert]
    simp [or_assoc]

theorem mem_expFold {orig : StrSet} {exps : List TagExpansion} {acc : StrSet}
    {s : String} :
    s ∈ exps.foldl
        (fun a te => if orig.contains te.fromTag then mergeStrSet a te.toTags else a) acc
      ↔ s ∈ acc ∨ ∃ e ∈ exps, orig.contains e.fromTag ∧ s ∈ e.toTags := by
  induction exps generalizing acc with
  | nil => simp
  | cons e es ih =>
    simp only [List.foldl_cons]
    rw [ih]
    by_cases h : orig.contains e.fromTag = true
    · rw [if_pos h, mem_mergeStrSet]
      constructor
      · rintro ((hs | hs) | ⟨e', he', hc, hs⟩)
        · exact Or.inl hs
        · exact Or.inr ⟨e, List.mem_cons_self _ _, h, hs⟩
        · exact Or.inr ⟨e', List.mem_cons_of_mem _ he', hc, hs⟩
      · rintro (hs | ⟨e', he', hc, hs⟩)
        · exact Or.inl (Or.inl hs)
        · rcases List.mem_cons.mp he' with rfl | he'
          · exact Or.inl (Or.inr hs)
          · exact Or.inr ⟨e', he', hc, hs⟩
    · rw [if_neg h]
      constructor
      · rintro (hs | ⟨e', he', hc, hs⟩)
        · exact Or.inl hs
        · exact Or.inr ⟨e', List.mem_cons_of_mem _ he', hc, hs⟩
      · rintro (hs | ⟨e', he', hc, hs⟩)
        · exact Or.inl hs
        · rcases List.mem_cons.mp he' with rfl | he'
          · exact absurd hc h
          · exact Or.inr ⟨e', he', hc, hs⟩

/-- C4: the effective tag set equals the original tags unioned with the
target sets of exactly those expansions whose source tag lies in the
original set; in particular it is a superset of the original tags, the
computation is total, and tags introduced by expansion are never
themselves expanded, since only membership in the original set selects an
expansion. -/
theorem c4_expand_characterization (exps : List TagExpansion) (orig : StrSet) :
    (∀ t ∈ orig, t ∈ expandTags exps orig) ∧
    (∀ s, s ∈ expandTags exps orig ↔
      s ∈ orig ∨ ∃ e ∈ exps, e.fromTag ∈ orig ∧ s ∈ e.toTags) := by
  have hchar : ∀ s, s ∈ expandTags exps orig ↔
      s ∈ orig ∨ ∃ e ∈ exps, e.fromTag ∈ orig ∧ s ∈ e.toTags := by
    intro s
    unfold expandTags
    rw [mem_mergeStrSet, mem_expFold]
    simp only [List.not_mem_nil, false_or, contains_iff_mem]
    exact or_comm
  exact ⟨fun t ht => (hchar t).mpr (Or.inl ht), hchar⟩

/-- Witness for C4 at a concrete expansion list and tag set: the tag x is
supplied by expanding a, and the original tag a is kept. -/
theorem c4_expand_characterization_witness :
    "x" ∈ expandTags [⟨"a", ["x"]⟩] ["a"] ∧ "a" ∈ expandTags [⟨"a", ["x"]⟩] ["a"] := by
  have h := c4_expand_characterization [⟨"a", ["x"]⟩] ["a"]
  refine ⟨(h.2 "x").mpr (Or.inr ⟨⟨"a", ["x"]⟩, by simp, by simp, by simp⟩), h.1 "a" (by simp)⟩

/-- C3 (the claim is the documented intent; the code misses it): the once
guard of filter.cpp line 84 is a fresh local object on every call, so the
generator is seeded again by the second selection call; with a pool whose
single entry survives an empty filter, the seed count after two calls is
2, where a seed-once guard would leave it at 1. -/
theorem c3_reseeds_every_call :
    (pickAnimationSeeded 0 [⟨"entry", []⟩] [] [] [] 0).1 = 1 ∧
    (pickAnimationSeeded (pickAnimationSeeded 0 [⟨"entry", []⟩] [] [] [] 0).1
      [⟨"entry", []⟩] [] [] [] 0).1 = 2 := by
  constructor <;> rfl

/-- C10: TaggerOutput deserialization throws exactly when req_tags is not
an array; when req_tags is an array the guard passes whatever ban_tags
holds, and the unconditional read of ban_tags is reached: it is the
undefined null dereference unless ban_tags is also an array, in which
case parsing succeeds. -/
theorem c10_guard_characterization (tbl : TomlTable) :
    ((∃ msg, TaggerOutput.fromToml tbl = .error (.thrown msg)) ↔
      tgetArr? tbl "req_tags" = none) ∧
    (∀ req, tgetArr? tbl "req_tags" = some req → tgetArr? tbl "ban_tags" = none →
      TaggerOutput.fromToml tbl = .error .ub) ∧
    (∀ req ban, tgetArr? tbl "req_tags" = some req →
      tgetArr? tbl "ban_tags" = some ban →
      TaggerOutput.fromToml tbl = .ok ⟨StrSet.fromToml req, StrSet.fromToml ban⟩) := by
  unfold TaggerOutput.fromToml
  cases hreq : tgetArr? tbl "req_tags" with
  | none => simp [hreq]
  | some req =>
    cases hban : tgetArr? tbl "ban_tags" with
    | none => simp [hreq, hban]
    | some ban => simp [hreq, hban]

/-- Witness for C10: a table whose req_tags is an array but whose
ban_tags is a boolean reaches the unsafe read. -/
theorem c10_guard_characterization_witness :
    TaggerOutput.fromToml [("req_tags", .vArr []), ("ban_tags", .vBool true)]
      = .error .ub := by
  exact (c10_guard_characterization
    [("req_tags", .vArr []), ("ban_tags", .vBool true)]).2.1 [] rfl rfl

/-! Lemmas for the json side of params validation (rule.h). -/

theorem readField_ok_iff {j : Json} {k : String} {kd : JKind} :
    readField j k kd = .ok () ↔
      ∃ v, jLookup j k = some v ∧ kindAccepts kd v = true := by
  unfold readField
  cases h : jLookup j k with
  | none => simp
  | some v =>
    by_cases hk : kindAccepts kd v <;> simp [hk]

theorem fromJsonFields_ok_iff {j : Json} {fields : List (String × JKind)} :
    fromJsonFields j fields = .ok () ↔
      ∀ fk ∈ fields, ∃ v, jLookup j fk.1 = some v ∧ kindAccepts fk.2 v = true := by
  induction fields with
  | nil => simp [fromJsonFields]
  | cons f rest ih =>
    obtain ⟨k, kd⟩ := f
    simp only [fromJsonFields]
    cases hr : readField j k kd with
    | error e =>
      simp only [List.mem_cons]
      constructor
      · intro h; cases h
      · intro h
        exact absurd (readField_ok_iff.mpr (h (k, kd) (Or.inl rfl))) (by simp [hr])
    | ok u =>
      obtain ⟨⟩ := u
      rw [ih]
      simp only [List.mem_cons]
      constructor
      · intro h fk hfk
        rcases hfk with rfl | hfk
        · exact readField_ok_iff.mp hr
        · exact h fk hfk
      · intro h fk hfk
        exact h fk (Or.inr hfk)

/-- C6 (amended): the json based Rule::checkParams accepts a blob exactly
when every field of the default params of the rule type is present with a
value of the accepted kind; values are free, and renamed, removed or kind
changed fields are rejected, but a blob with an added field is accepted,
not rejected. -/
theorem c6_checkParams_iff (rt : RuleType) (j : Json) :
    checkParams rt j = true ↔
      ∀ fk ∈ defaultFields rt, ∃ v, jLookup j fk.1 = some v ∧ kindAccepts fk.2 v = true := by
  unfold checkParams
  rw [← fromJsonFields_ok_iff]
  cases h : fromJsonFields j (defaultFields rt) with
  | error e => simp [h]
  | ok u => obtain ⟨⟩ := u; simp

/-- Witness for C6 (amended) at the Unconditional rule type and a blob
with the value field changed to false. -/
theorem c6_checkParams_iff_witness :
    checkParams .unconditional (.jObj [("value", .jBool false)]) = true := by
  exact (c6_checkParams_iff .unconditional (.jObj [("value", .jBool false)])).mpr
    (by intro fk hfk; simp [defaultFields] at hfk; subst hfk; exact ⟨.jBool false, rfl, rfl⟩)

/-- C6 counterexample: a blob for the Unconditional rule with the correct
value field plus one added field is accepted by Rule::checkParams even
though its key set differs from the default params structure, so the
claimed equivalence between acceptance and structural match fails. -/
theorem c6_counterexample :
    checkParams .unconditional (.jObj [("value", .jBool true), ("extra", .jNum 0)]) = true ∧
    structureMatches (defaultFields .unconditional)
      (.jObj [("value", .jBool true), ("extra", .jNum 0)]) = false := by
  constructor <;> rfl

/-- C1: the selection of pickAnimation returns none exactly when no pool
entry survives the filter; a returned entry is a pool entry whose
effective tag set contains every required tag and no banned tag (an empty
required set admits every entry, an empty banned set excludes none, both
by vacuity of the quantifiers). -/
theorem c1_pick_characterization (pool : List AnimEntry) (exps : List TagExpansion)
    (req ban : StrSet) (r : Nat) :
    (pickAnimation pool exps req ban r = none ↔ filteredAnims pool exps req ban = []) ∧
    (∀ e, pickAnimation pool exps req ban r = some e →
      e ∈ pool ∧ (∀ t ∈ req, t ∈ expandTags exps e.tags) ∧
        ∀ t ∈ ban, t ∉ expandTags exps e.tags) := by
  unfold pickAnimation
  by_cases h : filteredAnims pool exps req ban = []
  · simp [h]
  · have hne : (filteredAnims pool exps req ban).isEmpty = false := by
      simpa [List.isEmpty_iff] using h
    have hlt : r % (filteredAnims pool exps req ban).length
        < (filteredAnims pool exps req ban).length :=
      Nat.mod_lt _ (List.length_pos.mpr h)
    simp only [hne, Bool.false_eq_true, if_false]
    constructor
    · simp [List.getElem?_eq_getElem hlt, h]
    · intro e he
      have hmem : e ∈ filteredAnims pool exps req ban := List.getElem?_mem he
      have hf := List.mem_filter.mp hmem
      refine ⟨hf.1, ?_, ?_⟩
      · intro t ht
        have := hf.2
        simp only [animSurvives, Bool.and_eq_true, List.all_eq_true] at this
        exact contains_iff_mem.mp (this.1 t ht)
      · intro t ht hcontra
        have := hf.2
        simp only [animSurvives, Bool.and_eq_true, List.all_eq_true] at this
        have hb := this.2 t ht
        rw [Bool.not_eq_true', ← Bool.not_eq_true] at hb
        exact hb (contains_iff_mem.mpr hcontra)

/-- Witness for C1 at a pool of two entries of which exactly one
survives: the entry with tag a is returned, and a pool with an
unsatisfiable requirement yields none. -/
theorem c1_pick_characterization_witness :
    (pickAnimation [⟨"e1", ["a"]⟩, ⟨"e2", ["b"]⟩] [] ["a"] [] 0 = some ⟨"e1", ["a"]⟩ →
      ⟨"e1", ["a"]⟩ ∈ [AnimEntry.mk "e1" ["a"], AnimEntry.mk "e2" ["b"]] ∧
      (∀ t ∈ ["a"], t ∈ expandTags [] ["a"]) ∧
      ∀ t ∈ ([] : StrSet), t ∉ expandTags [] ["a"]) ∧
    (pickAnimation [⟨"e1", ["a"]⟩] [] ["z"] [] 0 = none ↔
      filteredAnims [⟨"e1", ["a"]⟩] [] ["z"] [] = []) := by
  refine ⟨fun he => ?_, (c1_pick_characterization [⟨"e1", ["a"]⟩] [] ["z"] [] 0).1⟩
  exact (c1_pick_characterization [⟨"e1", ["a"]⟩, ⟨"e2", ["b"]⟩] [] ["a"] [] 0).2 _ he

/-- C9 counterexample: with one other living hostile inside the radius at
distance 5 while the victim is hostile at distance 1 (and the attacker is
the player, so the player proxy clause is moot), the victim is the
nearest hostile within the radius, yet isLastHostileInRange returns
false; the claimed equivalence fails. -/
theorem c9_counterexample :
    isLastHostileInRange
      ⟨true, 1, [⟨false, false, 100, 5, true⟩], true, false, true, 0, false, 1, true⟩
      10 = false ∧
    victimIsNearestHostile
      ⟨true, 1, [⟨false, false, 100, 5, true⟩], true, false, true, 0, false, 1, true⟩
      10 = true := by
  constructor <;> rfl

/-- C9 (amended): isLastHostileInRange returns true exactly when the
process lists are available and either no high actor is loaded, or no
walked actor other than the two participants is alive, inside the radius
and hostile to the attacker, and, when neither participant is the player,
the existing player is not both inside the radius and a target of the
attacker hostility; the victim position and hostility are never
consulted. -/
theorem c9_characterization (w : LastHostileWorld) (range : Int) :
    isLastHostileInRange w range = true ↔
      w.processListsOk = true ∧
        (w.numberHighActors = 0 ∨
          ((∀ a ∈ w.highActors, blocksLastHostile range a = false) ∧
            (w.attackerIsPlayer = false → w.victimIsPlayer = false →
              w.playerExists = true → w.playerDistToAttacker < range →
              w.attackerHostileToPlayer = false))) := by
  unfold isLastHostileInRange
  cases hpl : w.processListsOk with
  | false => simp [hpl]
  | true =>
    simp only [hpl, Bool.not_true, Bool.false_eq_true, if_false, true_and]
    by_cases hn : w.numberHighActors = 0
    · simp [hn]
    · have hbeq : (w.numberHighActors == 0) = false := by
        simpa using hn
      simp only [hbeq, Bool.false_eq_true, if_false]
      by_cases hany : w.highActors.any (blocksLastHostile range) = true
      · rw [if_pos hany]
        simp only [Bool.false_eq_true, false_iff]
        rintro (h0 | ⟨hall, _⟩)
        · exact hn h0
        · obtain ⟨a, ha, hb⟩ := List.any_eq_true.mp hany
          rw [hall a ha] at hb
          cases hb
      · rw [if_neg hany]
        have hall : ∀ a ∈ w.highActors, blocksLastHostile range a = false := by
          intro a ha
          rw [← Bool.not_eq_true]
          intro hb
          exact hany (List.any_eq_true.mpr ⟨a, ha, hb⟩)
        by_cases hplayer : (!w.attackerIsPlayer && !w.victimIsPlayer && w.playerExists
            && decide (w.playerDistToAttacker < range) && w.attackerHostileToPlayer) = true
        · rw [if_pos hplayer]
          simp only [Bool.and_eq_true, Bool.not_eq_true', decide_eq_true_eq] at hplayer
          obtain ⟨⟨⟨⟨hna, hnv⟩, hpe⟩, hd⟩, hh⟩ := hplayer
          simp only [Bool.false_eq_true, false_iff]
          rintro (h0 | ⟨_, himp⟩)
          · exact hn h0
          · rw [himp hna hnv hpe hd] at hh
            cases hh
        · rw [if_neg hplayer]
          simp only [true_iff]
          refine Or.inr ⟨hall, fun hna hnv hpe hd => ?_⟩
          rw [← Bool.not_eq_true]
          intro hh
          exact hplayer (by simp [hna, hnv, hpe, hd, hh])

/-- Witness for C9 (amended): a world with the process lists down makes
the rule return false. -/
theorem c9_characterization_witness :
    isLastHostileInRange ⟨false, 0, [], false, false, false, 0, false, 0, false⟩ 10
      = false := by
  have h := c9_characterization ⟨false, 0, [], false, false, false, 0, false, 0, false⟩ 10
  rw [← Bool.not_eq_true]
  intro ht
  exact absurd (h.mp ht).1 (by simp)

/-! Registry lemmas. -/

theorem lookup_regShape (reg : Registry) (n : String) :
    List.lookup n (regShape reg) = (getRule? reg n).map RuleObj.defaultParams := by
  induction reg with
  | nil => rfl
  | cons kr rest ih =>
    obtain ⟨k, r⟩ := kr
    simp only [regShape, List.map_cons, List.lookup, getRule?]
    cases hnk : n == k with
    | false => simpa [regShape, getRule?] using ih
    | true => rfl

theorem regShape_setRuleParams (reg : Registry) (n : String) (p : TomlTable) :
    regShape (setRuleParams reg n p) = regShape reg := by
  induction reg with
  | nil => rfl
  | cons kr rest ih =>
    obtain ⟨k, r⟩ := kr
    simp only [setRuleParams]
    cases hkn : k == n with
    | false => simpa [regShape] using ih
    | true => simp [regShape]

theorem setRuleParams_self {reg : Registry} {n : String} {r : RuleObj}
    (h : getRule? reg n = some r) : setRuleParams reg n r.params = reg := by
  induction reg with
  | nil => cases h
  | cons kr rest ih =>
    obtain ⟨k, x⟩ := kr
    simp only [getRule?, List.lookup] at h
    simp only [setRuleParams]
    by_cases hk : n = k
    · subst hk
      rw [beq_self_eq_true] at h
      simp only [beq_self_eq_true, if_true]
      simp only [Option.some.injEq] at h
      subst h
      rfl
    · have hne : (n == k) = false := beq_eq_false_iff_ne.mpr hk
      have hne' : (k == n) = false := beq_eq_false_iff_ne.mpr (Ne.symm hk)
      rw [hne] at h
      rw [hne', if_neg (by simp)]
      rw [ih h]

/-! Round trip lemmas for tag set and TaggerOutput serialization. -/

theorem foldl_strInsert_append {l : List String} :
    ∀ {acc : StrSet}, l.Nodup → (∀ s ∈ l, s ∉ acc) → l.foldl strInsert acc = acc ++ l := by
  induction l with
  | nil => intro acc _ _; simp
  | cons x xs ih =>
    intro acc hnd hdisj
    have hx : x ∉ acc := hdisj x (List.mem_cons_self _ _)
    simp only [List.foldl_cons]
    rw [show strInsert acc x = acc ++ [x] from if_neg hx]
    rw [ih (List.nodup_cons.mp hnd).2 ?_]
    · simp
    · intro s hs
      simp only [List.mem_append, List.mem_singleton]
      rintro (h1 | rfl)
      · exact hdisj s (List.mem_cons_of_mem _ hs) h1
      · exact (List.nodup_cons.mp hnd).1 hs

theorem strSet_roundtrip {l : StrSet} (h : l.Nodup) :
    StrSet.fromToml (StrSet.toToml l) = l := by
  unfold StrSet.fromToml StrSet.toToml
  rw [List.foldl_map]
  show l.foldl strInsert [] = l
  rw [foldl_strInsert_append h (by simp)]
  simp

theorem tgetArr_req (x y : List TomlVal) :
    tgetArr? [("req_tags", .vArr x), ("ban_tags", .vArr y)] "req_tags" = some x := rfl

theorem tgetArr_ban (x y : List TomlVal) :
    tgetArr? [("req_tags", .vArr x), ("ban_tags", .vArr y)] "ban_tags" = some y := rfl

theorem taggerOutput_roundtrip {o : TaggerOutput}
    (h1 : o.required_tags.Nodup) (h2 : o.banned_tags.Nodup) :
    TaggerOutput.fromToml o.toToml = .ok o := by
  obtain ⟨req, ban⟩ := o
  simp only [TaggerOutput.toToml] at *
  unfold TaggerOutput.fromToml
  rw [tgetArr_req, tgetArr_ban]
  simp only [Option.isSome_some, Bool.and_self, Bool.not_true, Bool.false_eq_true,
    if_false]
  rw [strSet_roundtrip h1, strSet_roundtrip h2]

/-! Field access computations on a saved tagger table. -/

theorem toToml_rule (reg : Registry) (t : Tagger) :
    tgetStr? (Tagger.toToml reg t) "rule" = some t.ruleName := rfl

theorem toToml_params (reg : Registry) (t : Tagger) :
    tgetTable? (Tagger.toToml reg t) "params"
      = some (((getRule? reg t.ruleName).map RuleObj.params).getD []) := rfl

theorem toToml_comment (reg : Registry) (t : Tagger) :
    tgetStr? (Tagger.toToml reg t) "comment" = some t.comment := rfl

theorem toToml_enable_true (reg : Registry) (t : Tagger) :
    tgetBool? (Tagger.toToml reg t) "enable_true" = some t.enable_true := rfl

theorem toToml_enable_false (reg : Registry) (t : Tagger) :
    tgetBool? (Tagger.toToml reg t) "enable_false" = some t.enable_false := rfl

theorem toToml_true_tags (reg : Registry) (t : Tagger) :
    tgetTable? (Tagger.toToml reg t) "true_tags" = some t.true_tags.toToml := rfl

theorem toToml_false_tags (reg : Registry) (t : Tagger) :
    tgetTable? (Tagger.toToml reg t) "false_tags" = some t.false_tags.toToml := rfl

theorem tagger_roundtrip {reg : Registry} {t : Tagger}
    (hc : TaggerFromCatalog reg t) (hw : TaggerWF t) :
    Tagger.fromToml reg (Tagger.toToml reg t) = (reg, .ok t) := by
  obtain ⟨robj, hr, hs⟩ := hc
  obtain ⟨h1, h2, h3, h4⟩ := hw
  unfold Tagger.fromToml
  rw [toToml_rule, toToml_params, toToml_comment, toToml_enable_true,
    toToml_enable_false, toToml_true_tags, toToml_false_tags]
  simp only [hr, Option.map_some', Option.getD_some]
  rw [if_pos hs]
  rw [taggerOutput_roundtrip h1 h2, taggerOutput_roundtrip h3 h4]
  rw [setRuleParams_self hr]

theorem loadTaggers_roundtrip {reg : Registry} {ts : List Tagger}
    (hc : ∀ t ∈ ts, TaggerFromCatalog reg t) (hw : ∀ t ∈ ts, TaggerWF t) :
    ∀ (acc : List Tagger) (good : Bool),
      loadTaggers reg acc good (ts.map (fun t => .vTable (Tagger.toToml reg t)))
        = some (reg, acc ++ ts, good) := by
  induction ts with
  | nil => intro acc good; simp [loadTaggers]
  | cons t rest ih =>
    intro acc good
    simp only [List.map_cons, loadTaggers, TomlVal.asTable?]
    rw [tagger_roundtrip (hc t (List.mem_cons_self _ _)) (hw t (List.mem_cons_self _ _))]
    show loadTaggers reg (acc ++ [t]) good
        (rest.map (fun t => .vTable (Tagger.toToml reg t))) = _
    rw [ih (fun x hx => hc x (List.mem_cons_of_mem _ hx))
      (fun x hx => hw x (List.mem_cons_of_mem _ hx))]
    simp

/-! Round trip of the tag expansion table. -/

theorem tget_append_none {a b : TomlTable} {k : String}
    (h1 : tget a k = none) (h2 : tget b k = none) : tget (a ++ b) k = none := by
  induction a with
  | nil => exact h2
  | cons kv rest ih =>
    obtain ⟨k', v⟩ := kv
    simp only [tget, List.lookup, List.cons_append] at h1 ⊢
    cases hk : k == k' with
    | true =>
      simp only [hk] at h1
      cases h1
    | false =>
      simp only [hk] at h1 ⊢
      exact ih h1

theorem tget_singleton_ne {k k1 : String} {v : TomlVal} (h : k ≠ k1) :
    tget [(k1, v)] k = none := by
  simp only [tget, List.lookup, beq_eq_false_iff_ne.mpr h]

theorem foldl_emplace_map {l : List TagExpansion} :
    ∀ {acc : TomlTable}, (l.map TagExpansion.fromTag).Nodup →
      (∀ te ∈ l, tget acc te.fromTag = none) →
      l.foldl (fun acc te => tableEmplace acc te.fromTag (.vArr (StrSet.toToml te.toTags))) acc
        = acc ++ l.map (fun te => (te.fromTag, .vArr (StrSet.toToml te.toTags))) := by
  induction l with
  | nil => intro acc _ _; simp
  | cons e es ih =>
    intro acc hnd hnone
    have he : tget acc e.fromTag = none := hnone e (List.mem_cons_self _ _)
    simp only [List.foldl_cons]
    rw [show tableEmplace acc e.fromTag (.vArr (StrSet.toToml e.toTags))
        = acc ++ [(e.fromTag, .vArr (StrSet.toToml e.toTags))] by
      unfold tableEmplace; rw [he]; rfl]
    simp only [List.map_cons, List.nodup_cons] at hnd
    rw [ih hnd.2 ?_]
    · simp
    · intro te hte
      refine tget_append_none (hnone te (List.mem_cons_of_mem _ hte)) ?_
      refine tget_singleton_ne fun hcontra => ?_
      exact hnd.1 (hcontra ▸ List.mem_map_of_mem TagExpansion.fromTag hte)

theorem loadTagexps_roundtrip {l : List TagExpansion}
    (hto : ∀ te ∈ l, te.toTags.Nodup) :
    ∀ (exps : List TagExpansion) (good : Bool),
      loadTagexps exps good
          (l.map (fun te => (te.fromTag, .vArr (StrSet.toToml te.toTags))))
        = (exps ++ l, good) := by
  induction l with
  | nil => intro exps good; simp [loadTagexps]
  | cons e es ih =>
    intro exps good
    simp only [List.map_cons, loadTagexps, TomlVal.asArr?]
    rw [strSet_roundtrip (hto e (List.mem_cons_self _ _))]
    rw [ih (fun x hx => hto x (List.mem_cons_of_mem _ hx))]
    simp

theorem save_taggers (reg : Registry) (pl : FilterPipeline) :
    tgetArr? (FilterPipeline.saveFile reg pl) "taggers"
      = some (pl.tagger_list.map (fun t => .vTable (Tagger.toToml reg t))) := rfl

theorem save_tagexps (reg : Registry) (pl : FilterPipeline) :
    tgetTable? (FilterPipeline.saveFile reg pl) "tagexps"
      = some (pl.tagexp_list.foldl
          (fun acc te => tableEmplace acc te.fromTag (.vArr (StrSet.toToml te.toTags))) []) := rfl

/-- C2 (amended): loading a saved pipeline back, with append false and
against the registry state the save read, reproduces the tagger list
exactly (same rule names, comments, flags and tag sets, and the registry
resident params of every rule, which is where the code keeps the per
tagger params, are unchanged by the load), reproduces the expansion table
as a mapping, and reports full success, provided the pipeline was built
from the catalog (every rule name resolves, its stored params have the
default structure) and the expansion list carries pairwise distinct
source tags; with a duplicated source tag the save drops all but the
first entry, which is the counterexample to the unamended claim. -/
theorem c2_roundtrip (reg : Registry) (pl : FilterPipeline)
    (hc : ∀ t ∈ pl.tagger_list, TaggerFromCatalog reg t)
    (hw : ∀ t ∈ pl.tagger_list, TaggerWF t)
    (hk : (pl.tagexp_list.map TagExpansion.fromTag).Nodup)
    (ht : ∀ te ∈ pl.tagexp_list, te.toTags.Nodup) :
    ∃ pl', FilterPipeline.loadFile reg pl (FilterPipeline.saveFile reg pl) false
        = some (reg, pl', true) ∧
      pl'.tagger_list = pl.tagger_list ∧ tagexpEquiv pl'.tagexp_list pl.tagexp_list := by
  refine ⟨⟨pl.tagger_list, pl.tagexp_list⟩, ?_, rfl, fun t s => Iff.rfl⟩
  unfold FilterPipeline.loadFile
  rw [save_taggers, save_tagexps]
  show (match loadTaggers reg ([] : List Tagger) true
      (pl.tagger_list.map (fun t => .vTable (Tagger.toToml reg t))) with
    | none => none
    | some (reg', tgs, good1) =>
      some (reg', FilterPipeline.mk tgs (loadTagexps ([] : List TagExpansion) good1
        (pl.tagexp_list.foldl
          (fun acc te => tableEmplace acc te.fromTag (.vArr (StrSet.toToml te.toTags))) [])).1,
        (loadTagexps ([] : List TagExpansion) good1
          (pl.tagexp_list.foldl
            (fun acc te => tableEmplace acc te.fromTag (.vArr (StrSet.toToml te.toTags))) [])).2))
    = some (reg, FilterPipeline.mk pl.tagger_list pl.tagexp_list, true)
  rw [loadTaggers_roundtrip hc hw [] true]
  simp only [List.nil_append]
  rw [foldl_emplace_map hk
    (show ∀ te ∈ pl.tagexp_list, tget ([] : TomlTable) te.fromTag = none from
      fun te _ => rfl)]
  simp only [List.nil_append]
  rw [loadTagexps_roundtrip ht [] true]
  simp

/-- C2 counterexample: a pipeline with no taggers and two expansions
sharing the source tag a is within the quantification of the claim, yet
saving drops the second expansion (table emplace keeps the first binding
of a key), so the loaded expansion table no longer maps a to y and is not
equivalent to the original. -/
theorem c2_counterexample :
    FilterPipeline.loadFile [] ⟨[], [⟨"a", ["x"]⟩, ⟨"a", ["y"]⟩]⟩
        (FilterPipeline.saveFile [] ⟨[], [⟨"a", ["x"]⟩, ⟨"a", ["y"]⟩]⟩) false
      = some ([], ⟨[], [⟨"a", ["x"]⟩]⟩, true) ∧
    ¬ tagexpEquiv [⟨"a", ["x"]⟩] [⟨"a", ["x"]⟩, ⟨"a", ["y"]⟩] := by
  constructor
  · rfl
  · intro h
    obtain ⟨e, he, hfrom, hy⟩ :=
      (h "a" "y").mpr ⟨⟨"a", ["y"]⟩, by simp, rfl, by simp⟩
    simp only [List.mem_singleton] at he
    subst he
    simp at hy

/-- Witness for C2 (amended) at a registry with one rule and a pipeline
with one tagger of that rule and one expansion. -/
theorem c2_roundtrip_witness :
    ∃ pl', FilterPipeline.loadFile
        [("Unconditional", ⟨[("value", .vBool true)], [("value", .vBool false)]⟩)]
        ⟨[⟨"Unconditional", "c", true, false, ⟨["a"], []⟩, ⟨[], []⟩⟩], [⟨"a", ["x"]⟩]⟩
        (FilterPipeline.saveFile
          [("Unconditional", ⟨[("value", .vBool true)], [("value", .vBool false)]⟩)]
          ⟨[⟨"Unconditional", "c", true, false, ⟨["a"], []⟩, ⟨[], []⟩⟩], [⟨"a", ["x"]⟩]⟩)
        false
      = some ([("Unconditional", ⟨[("value", .vBool true)], [("value", .vBool false)]⟩)],
          pl', true) ∧
      pl'.tagger_list = [⟨"Unconditional", "c", true, false, ⟨["a"], []⟩, ⟨[], []⟩⟩] ∧
      tagexpEquiv pl'.tagexp_list [⟨"a", ["x"]⟩] := by
  exact c2_roundtrip _ _
    (by
      intro t ht
      simp only [List.mem_singleton] at ht
      subst ht
      exact ⟨⟨[("value", .vBool true)], [("value", .vBool false)]⟩, rfl, rfl⟩)
    (by
      intro t ht
      simp only [List.mem_singleton] at ht
      subst ht
      exact ⟨by simp, by simp, by simp, by simp⟩)
    (by simp)
    (by
      intro te hte
      simp only [List.mem_singleton] at hte
      subst hte
      simp)

/-- C5 counterexample: constructing a tagger from a loaded record whose
params differ from the stored ones rewrites the registry resident rule
object, so the registry is not read only after startup. -/
theorem c5_counterexample :
    (Tagger.fromToml
        [("Unconditional", ⟨[("value", .vBool true)], [("value", .vBool true)]⟩)]
        [("rule", .vStr "Unconditional"),
         ("params", .vTable [("value", .vBool false)]),
         ("comment", .vStr ""),
         ("enable_true", .vBool true),
         ("enable_false", .vBool false),
         ("true_tags", .vTable [("req_tags", .vArr []), ("ban_tags", .vArr [])]),
         ("false_tags", .vTable [("req_tags", .vArr []), ("ban_tags", .vArr [])])]).1
      ≠ [("Unconditional", ⟨[("value", .vBool true)], [("value", .vBool true)]⟩)] := by
  intro h
  have h1 : (getRule? (Tagger.fromToml
        [("Unconditional", ⟨[("value", .vBool true)], [("value", .vBool true)]⟩)]
        [("rule", .vStr "Unconditional"),
         ("params", .vTable [("value", .vBool false)]),
         ("comment", .vStr ""),
         ("enable_true", .vBool true),
         ("enable_false", .vBool false),
         ("true_tags", .vTable [("req_tags", .vArr []), ("ban_tags", .vArr [])]),
         ("false_tags", .vTable [("req_tags", .vArr []), ("ban_tags", .vArr [])])]).1
      "Unconditional").map RuleObj.params = some [("value", .vBool false)] := rfl
  rw [h] at h1
  have h2 : (getRule?
      [("Unconditional", ⟨[("value", .vBool true)], [("value", .vBool true)]⟩)]
      "Unconditional").map RuleObj.params = some [("value", .vBool true)] := rfl
  rw [h2] at h1
  simp at h1

/-- C5 (amended): whenever Tagger construction from a loaded record
succeeds, the resulting registry is exactly the old registry with the
referenced rule object rewritten to the loaded params blob; the rule
names and every default params table are untouched, but the params state
of the registry resident rule is overwritten, so the registry is mutable
through config loading while its name set and defaults stay fixed. -/
theorem c5_mutation (reg : Registry) (tbl : TomlTable) (reg' : Registry) (tg : Tagger)
    (h : Tagger.fromToml reg tbl = (reg', .ok tg)) :
    (∃ params, tgetTable? tbl "params" = some params ∧
      reg' = setRuleParams reg tg.ruleName params) ∧
    regShape reg' = regShape reg := by
  unfold Tagger.fromToml at h
  split at h
  case _ name params comment et ef ttT ftT h1 h2 h3 h4 h5 h6 h7 =>
    split at h
    case _ => simp at h
    case _ robj hrule =>
      split at h
      case isTrue hs =>
        split at h
        case _ e htt => simp at h
        case _ e htt hft => simp at h
        case _ tt ft htt hft =>
          simp only [Prod.mk.injEq, Except.ok.injEq] at h
          obtain ⟨hreg, htg⟩ := h
          subst htg
          subst hreg
          exact ⟨⟨params, h2, rfl⟩, regShape_setRuleParams reg name params⟩
      case isFalse hs => simp at h
  case _ => simp at h

/-- Witness for C5 (amended): the concrete load of the counterexample
rewrites exactly the Unconditional params in the registry. -/
theorem c5_mutation_witness :
    ∃ params, tgetTable?
        [("rule", .vStr "Unconditional"),
         ("params", .vTable [("value", .vBool false)]),
         ("comment", .vStr ""),
         ("enable_true", .vBool true),
         ("enable_false", .vBool false),
         ("true_tags", .vTable [("req_tags", .vArr []), ("ban_tags", .vArr [])]),
         ("false_tags", .vTable [("req_tags", .vArr []), ("ban_tags", .vArr [])])]
        "params" = some params ∧
      [("Unconditional", RuleObj.mk [("value", .vBool true)] [("value", .vBool false)])]
        = setRuleParams
            [("Unconditional", RuleObj.mk [("value", .vBool true)] [("value", .vBool true)])]
            "Unconditional" params := by
  have h := c5_mutation
    [("Unconditional", RuleObj.mk [("value", .vBool true)] [("value", .vBool true)])]
    [("rule", .vStr "Unconditional"),
     ("params", .vTable [("value", .vBool false)]),
     ("comment", .vStr ""),
     ("enable_true", .vBool true),
     ("enable_false", .vBool false),
     ("true_tags", .vTable [("req_tags", .vArr []), ("ban_tags", .vArr [])]),
     ("false_tags", .vTable [("req_tags", .vArr []), ("ban_tags", .vArr [])])]
    [("Unconditional", RuleObj.mk [("value", .vBool true)] [("value", .vBool false)])]
    ⟨"Unconditional", "", true, false, ⟨[], []⟩, ⟨[], []⟩⟩
    rfl
  exact h.1

/-! Bridge between Tagger.fromToml and the shape level entry status. -/

theorem fromToml_shape (reg : Registry) (tbl : TomlTable) :
    regShape (Tagger.fromToml reg tbl).1 = regShape reg := by
  unfold Tagger.fromToml
  split
  · split
    · rfl
    · split
      · split
        · apply regShape_setRuleParams
        · apply regShape_setRuleParams
        · apply regShape_setRuleParams
      · rfl
  · rfl

theorem fromToml_entryStatus (reg : Registry) (tbl : TomlTable) :
    (∀ tg, (Tagger.fromToml reg tbl).2 = .ok tg ↔
      entryStatus (regShape reg) (.vTable tbl) = .okTg tg) ∧
    ((Tagger.fromToml reg tbl).2 = .error .ub ↔
      entryStatus (regShape reg) (.vTable tbl) = .crash) := by
  rcases h1 : tgetStr? tbl "rule" with _ | name
  · simp [Tagger.fromToml, entryStatus, TomlVal.asTable?, h1]
  rcases h2 : tgetTable? tbl "params" with _ | params
  · simp [Tagger.fromToml, entryStatus, TomlVal.asTable?, h1, h2]
  rcases h3 : tgetStr? tbl "comment" with _ | comment
  · simp [Tagger.fromToml, entryStatus, TomlVal.asTable?, h1, h2, h3]
  rcases h4 : tgetBool? tbl "enable_true" with _ | et
  · simp [Tagger.fromToml, entryStatus, TomlVal.asTable?, h1, h2, h3, h4]
  rcases h5 : tgetBool? tbl "enable_false" with _ | ef
  · simp [Tagger.fromToml, entryStatus, TomlVal.asTable?, h1, h2, h3, h4, h5]
  rcases h6 : tgetTable? tbl "true_tags" with _ | ttT
  · simp [Tagger.fromToml, entryStatus, TomlVal.asTable?, h1, h2, h3, h4, h5, h6]
  rcases h7 : tgetTable? tbl "false_tags" with _ | ftT
  · simp [Tagger.fromToml, entryStatus, TomlVal.asTable?, h1, h2, h3, h4, h5, h6, h7]
  rcases hr : getRule? reg name with _ | robj
  · simp [Tagger.fromToml, entryStatus, TomlVal.asTable?, h1, h2, h3, h4, h5, h6, h7,
      lookup_regShape, hr]
  by_cases hs : isSameStructure params robj.defaultParams = true
  · rcases htt : TaggerOutput.fromToml ttT with e | tt
    · cases e with
      | thrown msg =>
        simp [Tagger.fromToml, entryStatus, TomlVal.asTable?, h1, h2, h3, h4, h5, h6, h7,
          lookup_regShape, hr, hs, htt]
      | ub =>
        simp [Tagger.fromToml, entryStatus, TomlVal.asTable?, h1, h2, h3, h4, h5, h6, h7,
          lookup_regShape, hr, hs, htt]
    · rcases hft : TaggerOutput.fromToml ftT with e | ft
      · cases e with
        | thrown msg =>
          simp [Tagger.fromToml, entryStatus, TomlVal.asTable?, h1, h2, h3, h4, h5, h6, h7,
            lookup_regShape, hr, hs, htt, hft]
        | ub =>
          simp [Tagger.fromToml, entryStatus, TomlVal.asTable?, h1, h2, h3, h4, h5, h6, h7,
            lookup_regShape, hr, hs, htt, hft]
      · simp [Tagger.fromToml, entryStatus, TomlVal.asTable?, h1, h2, h3, h4, h5, h6, h7,
          lookup_regShape, hr, hs, htt, hft]
  · simp [Tagger.fromToml, entryStatus, TomlVal.asTable?, h1, h2, h3, h4, h5, h6, h7,
      lookup_regShape, hr, hs]

/-- Behavior of the taggers loop when no element crashes: the loaded list
gains exactly the parsed entries in order, the flag is cleared exactly
when some element does not parse, and the registry shape is preserved. -/
theorem loadTaggers_spec {vs : List TomlVal} :
    ∀ {reg : Registry} (acc : List Tagger) (good : Bool),
      (∀ v ∈ vs, entryStatus (regShape reg) v ≠ .crash) →
      ∃ reg', loadTaggers reg acc good vs
          = some (reg',
              acc ++ vs.filterMap (fun v => (entryStatus (regShape reg) v).parsed?),
              good && vs.all (fun v => (entryStatus (regShape reg) v).keeps))
        ∧ regShape reg' = regShape reg := by
  induction vs with
  | nil =>
    intro reg acc good _
    exact ⟨reg, by simp [loadTaggers], rfl⟩
  | cons v rest ih =>
    intro reg acc good hnc
    rcases hv : v.asTable? with _ | tbl
    · have hes : entryStatus (regShape reg) v = .skip := by
        unfold entryStatus
        rw [hv]
      obtain ⟨reg', hload, hshape⟩ :=
        ih acc false (fun x hx => hnc x (List.mem_cons_of_mem _ hx))
      refine ⟨reg', ?_, hshape⟩
      simp only [loadTaggers, hv]
      rw [hload]
      simp [hes, EntryResult.parsed?, EntryResult.keeps]
    · have hveq : v = .vTable tbl := by
        cases v <;> simp [TomlVal.asTable?] at hv
        rw [hv]
      subst hveq
      have hshape0 := fromToml_shape reg tbl
      obtain ⟨hok, hub⟩ := fromToml_entryStatus reg tbl
      rcases hes : entryStatus (regShape reg) (.vTable tbl) with tg | _ | _
      · have hres : (Tagger.fromToml reg tbl).2 = .ok tg := (hok tg).mpr hes
        have hpair : Tagger.fromToml reg tbl
            = ((Tagger.fromToml reg tbl).1, Except.ok tg) := by
          rw [← hres]
        rw [hpair] at hshape0
        obtain ⟨reg', hload, hshape⟩ :=
          ih (acc ++ [tg]) good (fun x hx => by
            rw [hshape0]
            exact hnc x (List.mem_cons_of_mem _ hx))
        rw [hshape0] at hload
        refine ⟨reg', ?_, hshape.trans hshape0⟩
        simp only [loadTaggers, TomlVal.asTable?]
        rw [hpair]
        show loadTaggers (Tagger.fromToml reg tbl).1 (acc ++ [tg]) good rest = _
        rw [hload]
        simp [hes, EntryResult.parsed?, EntryResult.keeps]
      · have hres : ∃ msg, (Tagger.fromToml reg tbl).2 = .error (.thrown msg) := by
          rcases hr : (Tagger.fromToml reg tbl).2 with e | tg2
          · cases e with
            | thrown msg => exact ⟨msg, rfl⟩
            | ub =>
              rw [hes] at hub
              exact absurd (hub.mp hr) (by simp)
          · rw [hes] at hok
            exact absurd ((hok tg2).mp hr) (by simp)
        obtain ⟨msg, hres⟩ := hres
        have hpair : Tagger.fromToml reg tbl
            = ((Tagger.fromToml reg tbl).1, Except.error (.thrown msg)) := by
          rw [← hres]
        rw [hpair] at hshape0
        obtain ⟨reg', hload, hshape⟩ :=
          ih acc false (fun x hx => by
            rw [hshape0]
            exact hnc x (List.mem_cons_of_mem _ hx))
        rw [hshape0] at hload
        refine ⟨reg', ?_, hshape.trans hshape0⟩
        simp only [loadTaggers, TomlVal.asTable?]
        rw [hpair]
        show loadTaggers (Tagger.fromToml reg tbl).1 acc false rest = _
        rw [hload]
        simp [hes, EntryResult.parsed?, EntryResult.keeps]
      · exact absurd hes (hnc _ (List.mem_cons_self _ _))

/-- The tagexps loop never sets the flag back to true. -/
theorem loadTagexps_false (kvs : List (String × TomlVal)) :
    ∀ exps, (loadTagexps exps false kvs).2 = false := by
  induction kvs with
  | nil => intro exps; rfl
  | cons kv rest ih =>
    intro exps
    obtain ⟨k, v⟩ := kv
    simp only [loadTagexps]
    cases v.asArr? <;> simp [ih]

/-- C7: for every parsed config document whose taggers array contains an
entry with all seven fields well typed but whose rule name is not
registered, load skips that entry, loads every remaining well formed
entry into the tagger list in order, and returns overall false (the code
also logs a warning for the skipped entry; logging is outside the
embedding). -/
theorem c7_load_skips_bad_rule (reg : Registry) (pl : FilterPipeline) (doc : TomlTable)
    (pre post : List TomlVal) (btbl : TomlTable) (bname : String)
    (hdoc : tgetArr? doc "taggers" = some (pre ++ .vTable btbl :: post))
    (hbname : tgetStr? btbl "rule" = some bname)
    (hbfields : (tgetTable? btbl "params").isSome ∧ (tgetStr? btbl "comment").isSome ∧
      (tgetBool? btbl "enable_true").isSome ∧ (tgetBool? btbl "enable_false").isSome ∧
      (tgetTable? btbl "true_tags").isSome ∧ (tgetTable? btbl "false_tags").isSome)
    (hunreg : getRule? reg bname = none)
    (hgoodrest : ∀ v ∈ pre ++ post, ∃ tg, entryStatus (regShape reg) v = .okTg tg) :
    ∃ reg' exps, FilterPipeline.loadFile reg pl doc false
        = some (reg',
            ⟨(pre ++ post).filterMap (fun v => (entryStatus (regShape reg) v).parsed?),
             exps⟩,
            false) := by
  obtain ⟨hparams, hcomment, het, hef, htt, hft⟩ := hbfields
  obtain ⟨params, hp⟩ := Option.isSome_iff_exists.mp hparams
  obtain ⟨comment, hcm⟩ := Option.isSome_iff_exists.mp hcomment
  obtain ⟨et, hetv⟩ := Option.isSome_iff_exists.mp het
  obtain ⟨ef, hefv⟩ := Option.isSome_iff_exists.mp hef
  obtain ⟨ttT, httv⟩ := Option.isSome_iff_exists.mp htt
  obtain ⟨ftT, hftv⟩ := Option.isSome_iff_exists.mp hft
  have hbad : entryStatus (regShape reg) (.vTable btbl) = .skip := by
    simp [entryStatus, TomlVal.asTable?, hbname, hp, hcm, hetv, hefv, httv, hftv,
      lookup_regShape, hunreg]
  have hnc : ∀ v ∈ pre ++ TomlVal.vTable btbl :: post,
      entryStatus (regShape reg) v ≠ .crash := by
    intro v hv
    rcases List.mem_append.mp hv with hpre | hmid
    · obtain ⟨tg, htg⟩ := hgoodrest v (List.mem_append.mpr (Or.inl hpre))
      simp [htg]
    · rcases List.mem_cons.mp hmid with rfl | hpost
      · simp [hbad]
      · obtain ⟨tg, htg⟩ := hgoodrest v (List.mem_append.mpr (Or.inr hpost))
        simp [htg]
  obtain ⟨reg', hload, hshape⟩ := loadTaggers_spec [] true hnc
  have hflag : ((pre ++ TomlVal.vTable btbl :: post).all
      (fun v => (entryStatus (regShape reg) v).keeps)) = false := by
    simp [List.all_append, List.all_cons, hbad, EntryResult.keeps]
  have hfm : (pre ++ TomlVal.vTable btbl :: post).filterMap
        (fun v => (entryStatus (regShape reg) v).parsed?)
      = (pre ++ post).filterMap (fun v => (entryStatus (regShape reg) v).parsed?) := by
    simp [List.filterMap_append, List.filterMap_cons, hbad, EntryResult.parsed?]
  rw [hflag, hfm] at hload
  simp only [List.nil_append, Bool.true_and] at hload
  have hpl0 : (if false = true then pl else FilterPipeline.mk [] [])
      = FilterPipeline.mk [] [] := rfl
  cases htx : tgetTable? doc "tagexps" with
  | none =>
    refine ⟨reg', [], ?_⟩
    unfold FilterPipeline.loadFile
    simp only [hpl0, hdoc, hload, htx]
  | some kvs =>
    refine ⟨reg', (loadTagexps [] false kvs).1, ?_⟩
    unfold FilterPipeline.loadFile
    simp only [hpl0, hdoc, hload, htx, loadTagexps_false]

/-- Witness for C7: a registry with the Unconditional rule, a document
with one well formed tagger and one tagger naming the unregistered rule
Missing; the well formed tagger loads, the bad one is skipped, and the
call reports false. -/
theorem c7_load_skips_bad_rule_witness :
    ∃ reg' exps, FilterPipeline.loadFile
        [("Unconditional", RuleObj.mk [("value", .vBool true)] [("value", .vBool true)])]
        ⟨[], []⟩
        [("taggers", .vArr
          [.vTable [("rule", .vStr "Unconditional"),
                    ("params", .vTable [("value", .vBool false)]),
                    ("comment", .vStr ""),
                    ("enable_true", .vBool true),
                    ("enable_false", .vBool false),
                    ("true_tags", .vTable [("req_tags", .vArr []), ("ban_tags", .vArr [])]),
                    ("false_tags", .vTable [("req_tags", .vArr []), ("ban_tags", .vArr [])])],
           .vTable [("rule", .vStr "Missing"),
                    ("params", .vTable [("value", .vBool false)]),
                    ("comment", .vStr ""),
                    ("enable_true", .vBool true),
                    ("enable_false", .vBool false),
                    ("true_tags", .vTable [("req_tags", .vArr []), ("ban_tags", .vArr [])]),
                    ("false_tags", .vTable [("req_tags", .vArr []), ("ban_tags", .vArr [])])]]),
         ("tagexps", .vTable [])]
        false
      = some (reg',
          ⟨[⟨"Unconditional", "", true, false, ⟨[], []⟩, ⟨[], []⟩⟩], exps⟩,
          false) := by
  exact c7_load_skips_bad_rule
    [("Unconditional", RuleObj.mk [("value", .vBool true)] [("value", .vBool true)])]
    ⟨[], []⟩ _
    [.vTable [("rule", .vStr "Unconditional"),
              ("params", .vTable [("value", .vBool false)]),
              ("comment", .vStr ""),
              ("enable_true", .vBool true),
              ("enable_false", .vBool false),
              ("true_tags", .vTable [("req_tags", .vArr []), ("ban_tags", .vArr [])]),
              ("false_tags", .vTable [("req_tags", .vArr []), ("ban_tags", .vArr [])])]]
    []
    [("rule", .vStr "Missing"),
     ("params", .vTable [("value", .vBool false)]),
     ("comment", .vStr ""),
     ("enable_true", .vBool true),
     ("enable_false", .vBool false),
     ("true_tags", .vTable [("req_tags", .vArr []), ("ban_tags", .vArr [])]),
     ("false_tags", .vTable [("req_tags", .vArr []), ("ban_tags", .vArr [])])]
    "Missing"
    rfl rfl ⟨rfl, rfl, rfl, rfl, rfl, rfl⟩ rfl
    (by
      intro v hv
      simp only [List.append_nil, List.mem_singleton] at hv
      subst hv
      exact ⟨⟨"Unconditional", "", true, false, ⟨[], []⟩, ⟨[], []⟩⟩, rfl⟩)

/-- C8: for every parsed config document with no tagexps key, load
returns false while the tagger list is still populated from a present,
well formed taggers array (after a clearing load, the expansion list
stays empty). -/
theorem c8_missing_tagexps (reg : Registry) (pl : FilterPipeline) (doc : TomlTable)
    (vs : List TomlVal)
    (habs : tget doc "tagexps" = none)
    (htag : tgetArr? doc "taggers" = some vs)
    (hgood : ∀ v ∈ vs, ∃ tg, entryStatus (regShape reg) v = .okTg tg) :
    ∃ reg', FilterPipeline.loadFile reg pl doc false
        = some (reg',
            ⟨vs.filterMap (fun v => (entryStatus (regShape reg) v).parsed?), []⟩,
            false) := by
  have hnc : ∀ v ∈ vs, entryStatus (regShape reg) v ≠ .crash := by
    intro v hv
    obtain ⟨tg, htg⟩ := hgood v hv
    simp [htg]
  obtain ⟨reg', hload, hshape⟩ := loadTaggers_spec [] true hnc
  simp only [List.nil_append] at hload
  have htxe : tgetTable? doc "tagexps" = none := by
    unfold tgetTable?
    rw [habs]
    rfl
  have hpl0 : (if false = true then pl else FilterPipeline.mk [] [])
      = FilterPipeline.mk [] [] := rfl
  refine ⟨reg', ?_⟩
  unfold FilterPipeline.loadFile
  simp only [hpl0, htag, hload, htxe]

/-- Witness for C8: a document holding one well formed tagger and no
tagexps key loads the tagger and reports false. -/
theorem c8_missing_tagexps_witness :
    ∃ reg', FilterPipeline.loadFile
        [("Unconditional", RuleObj.mk [("value", .vBool true)] [("value", .vBool true)])]
        ⟨[], []⟩
        [("taggers", .vArr
          [.vTable [("rule", .vStr "Unconditional"),
                    ("params", .vTable [("value", .vBool false)]),
                    ("comment", .vStr ""),
                    ("enable_true", .vBool true),
                    ("enable_false", .vBool false),
                    ("true_tags", .vTable [("req_tags", .vArr []), ("ban_tags", .vArr [])]),
                    ("false_tags", .vTable [("req_tags", .vArr []), ("ban_tags", .vArr [])])]])]
        false
      = some (reg',
          ⟨[⟨"Unconditional", "", true, false, ⟨[], []⟩, ⟨[], []⟩⟩], []⟩,
          false) := by
  exact c8_missing_tagexps
    [("Unconditional", RuleObj.mk [("value", .vBool true)] [("value", .vBool true)])]
    ⟨[], []⟩
    [("taggers", .vArr
      [.vTable [("rule", .vStr "Unconditional"),
                ("params", .vTable [("value", .vBool false)]),
                ("comment", .vStr ""),
                ("enable_true", .vBool true),
                ("enable_false", .vBool false),
                ("true_tags", .vTable [("req_tags", .vArr []), ("ban_tags", .vArr [])]),
                ("false_tags", .vTable [("req_tags", .vArr []), ("ban_tags", .vArr [])])]])]
    [.vTable [("rule", .vStr "Unconditional"),
              ("params", .vTable [("value", .vBool false)]),
              ("comment", .vStr ""),
              ("enable_true", .vBool true),
              ("enable_false", .vBool false),
              ("true_tags", .vTable [("req_tags", .vArr []), ("ban_tags", .vArr [])]),
              ("false_tags", .vTable [("req_tags", .vArr []), ("ban_tags", .vArr [])])]]
    rfl rfl
    (by
      intro v hv
      simp only [List.mem_singleton] at hv
      subst hv
      exact ⟨⟨"Unconditional", "", true, false, ⟨[], []⟩, ⟨[], []⟩⟩, rfl⟩)

end Kaputt
